import Mathlib

/- Shallow embedding of src/utils.py, a module of helper functions over the
   PySpark dataframe API. Dataframes are modelled as a list of column names
   together with a list of rows, each row a list of cell values. Engine
   operations (select, filter, orderBy, groupBy, agg) are modelled
   denotationally on that representation. -/

/-- A calendar date (year, month, day), the model of Spark DateType values. -/
structure Date where
  year : Int
  month : Int
  day : Int
deriving DecidableEq, Repr

/-- Lexicographic comparison of dates: year, then month, then day. -/
def Date.leb (a b : Date) : Bool :=
  a.year < b.year ||
    (a.year == b.year &&
      (a.month < b.month || (a.month == b.month && a.day ≤ b.day)))

/-- Strict version of Date.leb. -/
def Date.ltb (a b : Date) : Bool :=
  a.leb b && !(b.leb a)

/-- Gregorian leap-year rule. -/
def isLeap (y : Int) : Bool :=
  (y % 4 == 0 && y % 100 != 0) || y % 400 == 0

/-- Number of days of month m of year y. -/
def daysInMonth (y m : Int) : Int :=
  if m == 2 then (if isLeap y then 29 else 28)
  else if m == 4 || m == 6 || m == 9 || m == 11 then 30
  else 31

/-- Spark add_months(date, k): shift by k months and clamp the day of month
    to the length of the target month. -/
def Date.addMonths (dt : Date) (k : Int) : Date :=
  let t := dt.year * 12 + (dt.month - 1) + k
  { year := t.fdiv 12,
    month := t.emod 12 + 1,
    day := min dt.day (daysInMonth (t.fdiv 12) (t.emod 12 + 1)) }

/-- A cell of a dataframe: SQL null, or an integer, exact numeric, string or
    date value. Spark doubles are modelled as exact rationals. -/
inductive Val where
  | null
  | int (n : Int)
  | rat (q : ℚ)
  | str (s : String)
  | date (d : Date)
deriving DecidableEq, Repr

/-- A dataframe: a schema (list of column names) and a list of rows. -/
structure DataFrame where
  cols : List String
  rows : List (List Val)
deriving DecidableEq, Repr

/-- Value of column c in row r, given the schema cols: the cell at the index
    of the first column named c (null when the column is absent). -/
def cellOf (cols : List String) (r : List Val) (c : String) : Val :=
  r.getD (cols.indexOf c) Val.null

/-- Rank of a constructor of Val, used to compare cells of different kinds. -/
def Val.rank : Val → Nat
  | .null => 0
  | .int _ => 1
  | .rat _ => 2
  | .str _ => 3
  | .date _ => 4

/-- Total preorder on cell values: within a kind the natural order of the
    kind (nulls first, as in Spark ascending order); across kinds by rank. -/
def Val.leb : Val → Val → Bool
  | .int a, .int b => a ≤ b
  | .rat a, .rat b => a ≤ b
  | .str a, .str b => a ≤ b
  | .date a, .date b => a.leb b
  | a, b => a.rank ≤ b.rank

/-- Strict version of Val.leb. -/
def Val.ltb (a b : Val) : Bool :=
  a.leb b && !(b.leb a)

/-- A sort key of the engine orderBy operation: a column, ascending or
    descending. -/
inductive SortKey where
  | asc (c : String)
  | desc (c : String)
deriving DecidableEq, Repr

/-- One lexicographic step of the row comparison: strictly smaller first
    component decides, ties fall through to the rest. -/
def stepB (x y : Val) (rest : Bool) : Bool :=
  if x.ltb y then true else if y.ltb x then false else rest

/-- Lexicographic comparison of two rows along a list of sort keys. -/
def rowLeB (cols : List String) : List SortKey → List Val → List Val → Bool
  | [], _, _ => true
  | .asc c :: ks, a, b =>
      stepB (cellOf cols a c) (cellOf cols b c) (rowLeB cols ks a b)
  | .desc c :: ks, a, b =>
      stepB (cellOf cols b c) (cellOf cols a c) (rowLeB cols ks a b)

/-- The engine orderBy: a sort of the rows by the lexicographic row
    comparison along the given keys. -/
def DataFrame.orderBy (df : DataFrame) (keys : List SortKey) : DataFrame :=
  { df with
    rows := df.rows.insertionSort (fun a b => rowLeB df.cols keys a b = true) }

/-- orderBy_dict from src/utils.py. The validation loop over the dictionary
    values raises ValueError on the first value that is neither asc nor desc,
    modelled as the error case of Except. In the sort-key list of the source,
    the branch for the value desc also builds asc(col(coluna)); the final
    None alternative is unreachable after validation. -/
def orderBy_dict (df : DataFrame) (d_order : List (String × String)) :
    Except String DataFrame :=
  match d_order.find? (fun p => p.2 != "asc" && p.2 != "desc") with
  | some p => .error ("Ordem " ++ p.2 ++ " nao identificada")
  | none =>
      .ok (df.orderBy (d_order.filterMap (fun p =>
        if p.2 == "asc" then some (.asc p.1)
        else if p.2 == "desc" then some (.asc p.1)
        else none)))

/-- The engine withColumn with a per-row expression: replaces the column in
    place when the name already exists, otherwise appends it. -/
def DataFrame.withColumnExpr (df : DataFrame) (c : String)
    (e : List Val → Val) : DataFrame :=
  if c ∈ df.cols then
    { cols := df.cols,
      rows := df.rows.map (fun r => r.set (df.cols.indexOf c) (e r)) }
  else
    { cols := df.cols ++ [c], rows := df.rows.map (fun r => r ++ [e r]) }

/-- criar_col_dat_hoje from src/utils.py. The source calls
    datetime.now().strftime and to_date(lit(...)), reading the current date
    from the environment; that environment read is modelled as the explicit
    parameter today. -/
def criar_col_dat_hoje (today : Date) (df : DataFrame) (nm_col : String) :
    DataFrame :=
  df.withColumnExpr nm_col (fun _ => Val.date today)

/-- The date carried by a cell, if any. -/
def Val.asDate : Val → Option Date
  | .date d => some d
  | _ => none

/-- Spark CAST(x AS DATE) on modelled values: a date stays itself, null and
    non-date cells become null. -/
def Val.castDate : Val → Val
  | .date d => .date d
  | _ => .null

/-- Spark greater-than comparison of two cells: defined on two values of the
    same comparable kind, null (hence false here) whenever an operand is
    null or the kinds differ. -/
def Val.gtb : Val → Val → Bool
  | .int a, .int b => b < a
  | .rat a, .rat b => b < a
  | .str a, .str b => b < a
  | .date a, .date b => Date.ltb b a
  | _, _ => false

/-- Greatest element of a list of dates, none when the list is empty. -/
def listMaxD : List Date → Option Date
  | [] => none
  | d :: ds =>
      some ((listMaxD ds).elim d (fun m => if Date.leb m d then d else m))

/-- agg(max(nm_col)) over a date column: the greatest non-null date of the
    column, or none when there is no date. -/
def sparkMaxDate (df : DataFrame) (c : String) : Option Date :=
  listMaxD (df.rows.filterMap (fun r => (cellOf df.cols r c).asDate))

/-- obter_data_inicial from src/utils.py:
    agg(add_months(max(nm_col_filtrada), -n_meses)).collect()[0][0]. -/
def obter_data_inicial (df : DataFrame) (nm_col_filtrada : String)
    (n_meses : Int) : Val :=
  match sparkMaxDate df nm_col_filtrada with
  | some m => .date (m.addMonths (-n_meses))
  | none => .null

/-- filtrar_ultimos_n_meses from src/utils.py:
    filter(col(nm_col_filtrada).cast(DateType()) > data_inicial). -/
def filtrar_ultimos_n_meses (df : DataFrame) (nm_col_filtrada : String)
    (n_meses : Int) : DataFrame :=
  { df with
    rows := df.rows.filter (fun r =>
      ((cellOf df.cols r nm_col_filtrada).castDate).gtb
        (obter_data_inicial df nm_col_filtrada n_meses)) }

/-- The engine select with aliases: for each pair (source, alias) the value
    of the source column, under the alias as new name. -/
def DataFrame.selectAliased (df : DataFrame)
    (pairs : List (String × String)) : DataFrame :=
  { cols := pairs.map Prod.snd,
    rows := df.rows.map (fun r => pairs.map (fun p => cellOf df.cols r p.1)) }

/-- renomear_cols from src/utils.py. For each column c the source takes
    values()[keys().index(c)] guarded by try/except, that is the value of the
    first pair whose key is c when one exists and c itself otherwise, and
    selects col(c).alias(new name). -/
def renomear_cols (df : DataFrame) (dict_cols : List (String × String)) :
    DataFrame :=
  let ks := dict_cols.map Prod.fst
  let vs := dict_cols.map Prod.snd
  let cols_final := df.cols.map (fun c =>
    if c ∈ ks then vs.getD (ks.indexOf c) c else c)
  df.selectAliased (df.cols.zip cols_final)

/-- Floor of a rational number as an integer. -/
def ratFloor (q : ℚ) : Int :=
  q.num.fdiv (q.den : Int)

/-- Spark round(x, 2): rounding to 2 decimal places in HALF_UP mode, ties
    away from zero. -/
def round2 (q : ℚ) : ℚ :=
  if q < 0 then -(((ratFloor ((-q) * 100 + 1 / 2) : Int) : ℚ) / 100)
  else ((ratFloor (q * 100 + 1 / 2) : Int) : ℚ) / 100

/-- Numeric content of a cell, if any. -/
def Val.toRatQ : Val → Option ℚ
  | .int n => some (n : ℚ)
  | .rat q => some q
  | _ => none

/-- round(v * 100 / total, 2) with Spark null semantics: a non-numeric
    operand or a division by zero yields null. -/
def pctOf (v : Val) (total : Int) : Val :=
  match v.toRatQ with
  | some q =>
      if total = 0 then Val.null else Val.rat (round2 (q * 100 / (total : ℚ)))
  | none => Val.null

/-- obter_pct from src/utils.py:
    select(round((col(c) * 100) / total, 2).alias(c) for c in lst_nm_cols). -/
def obter_pct (df : DataFrame) (lst_nm_cols : List String) (total : Int) :
    DataFrame :=
  { cols := lst_nm_cols,
    rows := df.rows.map (fun r =>
      lst_nm_cols.map (fun c => pctOf (cellOf df.cols r c) total)) }

/-- Number of rows of df whose cell in column c is null. -/
def countNulls (df : DataFrame) (c : String) : Nat :=
  (df.rows.filter (fun r => cellOf df.cols r c == Val.null)).length

/-- obter_qtd_ausentes from src/utils.py:
    agg(count(when(isnull(c), c)).alias(c) for c in lst_nm_cols), with the
    whole column list as default. The when expression is the literal string c
    (never null) on null cells and null otherwise, so each count is the
    number of rows where column c is null. -/
def obter_qtd_ausentes (df : DataFrame)
    (lst_nm_cols : Option (List String)) : DataFrame :=
  { cols := lst_nm_cols.getD df.cols,
    rows := [(lst_nm_cols.getD df.cols).map
      (fun c => Val.int (countNulls df c))] }

/-- obter_pct_ausentes from src/utils.py: defaults lst_nm_cols to all
    columns and tam_df to count(), then pipes obter_qtd_ausentes into
    obter_pct. -/
def obter_pct_ausentes (df : DataFrame) (lst_nm_cols : Option (List String))
    (tam_df : Option Int) : DataFrame :=
  obter_pct (obter_qtd_ausentes df (some (lst_nm_cols.getD df.cols)))
    (lst_nm_cols.getD df.cols) (tam_df.getD (df.rows.length : Int))

/-- The predicate col(c).eqNullSafe(0) of Spark on a cell: a numeric value
    equal to zero; null compares as false, not as null. -/
def eqNullSafeZero : Val → Bool
  | .int n => n == 0
  | .rat q => q == 0
  | _ => false

/-- obter_qtd_zeros from src/utils.py:
    agg(count(when(col(c).eqNullSafe(0), c)).alias(c) for c in lst_nm_cols).
    The when expression is the literal string c on zero-valued cells and null
    otherwise, so each count is the number of rows with value zero. -/
def obter_qtd_zeros (df : DataFrame) (lst_nm_cols : List String) :
    DataFrame :=
  { cols := lst_nm_cols,
    rows := [lst_nm_cols.map (fun c =>
      Val.int ((df.rows.filter (fun r =>
        eqNullSafeZero (cellOf df.cols r c))).length))] }

/-- Grouping key of a row: its values under the grouping columns. -/
def keyOfRow (df : DataFrame) (nm_col : List String) (r : List Val) :
    List Val :=
  nm_col.map (fun c => cellOf df.cols r c)

/-- Number of rows of df whose grouping key equals k. -/
def freqCount (df : DataFrame) (nm_col : List String) (k : List Val) : Nat :=
  (df.rows.filter (fun r => keyOfRow df nm_col r == k)).length

/-- The engine groupBy(nm_col).count(): one output row per distinct key of
    the grouping columns (null keys group like any value), carrying the key
    and the number of rows with that key under the new column count. The
    order of the group rows is unspecified in the engine; it is fixed only by
    the orderBy that follows in obter_tab_freq. -/
def groupCount (df : DataFrame) (nm_col : List String) : DataFrame :=
  { cols := nm_col ++ ["count"],
    rows := (df.rows.map (keyOfRow df nm_col)).dedup.map (fun k =>
      k ++ [Val.int (freqCount df nm_col k)]) }

/-- The engine withColumnRenamed: every column named a is renamed to b. -/
def DataFrame.withColumnRenamed (df : DataFrame) (a b : String) :
    DataFrame :=
  { df with cols := df.cols.map (fun c => if c == a then b else c) }

/-- The first three steps of the obter_tab_freq chain of src/utils.py:
    groupBy(nm_col).count().withColumnRenamed("count", "freq_absoluta")
    .withColumn, the new column holding round(freq_absoluta * 100 / tam, 2). -/
def tabFreqBase (df : DataFrame) (nm_col : List String) (tam : Int) :
    DataFrame :=
  ((groupCount df nm_col).withColumnRenamed "count"
      "freq_absoluta").withColumnExpr "freq_relativa (%)"
    (fun r =>
      pctOf
        (cellOf ((groupCount df nm_col).withColumnRenamed "count"
            "freq_absoluta").cols r "freq_absoluta")
        tam)

/-- obter_tab_freq from src/utils.py: groupBy(nm_col).count(), rename count
    to freq_absoluta, add the relative frequency column, order by
    freq_absoluta descending. The parameter nm_col, a name or list of names
    in the source, is modelled as a list (a single name as a singleton). -/
def obter_tab_freq (df : DataFrame) (nm_col : List String)
    (tam_df : Option Int) : DataFrame :=
  (tabFreqBase df nm_col (tam_df.getD (df.rows.length : Int))).orderBy
    [SortKey.desc "freq_absoluta"]

/-- formatar_cols_moeda from src/utils.py builds a udf over
    babel.numbers.format_currency(a, "BRL"). That third-party formatter is
    modelled as a function producing the BRL currency string of a numeric
    cell; the exact digit grouping of babel is immaterial to the claims,
    which concern the schema of the result. -/
def format_currency_brl (v : Val) : Val :=
  match v with
  | .int n => .str ("R$ " ++ toString n ++ ",00")
  | .rat q => .str ("R$ " ++ toString (ratFloor q))
  | v => .str ("R$ " ++ toString v.rank)

/-- formatar_cols_moeda from src/utils.py:
    select(*lst_cols_rest, *(udf(c).alias(c) for c in lst_cols_moeda)) where
    lst_cols_rest is the list of columns not in lst_cols_moeda. -/
def formatar_cols_moeda (df : DataFrame) (lst_cols_moeda : List String) :
    DataFrame :=
  let lst_cols_rest := df.cols.filter (fun c => !lst_cols_moeda.contains c)
  { cols := lst_cols_rest ++ lst_cols_moeda,
    rows := df.rows.map (fun r =>
      lst_cols_rest.map (fun c => cellOf df.cols r c) ++
        lst_cols_moeda.map (fun c =>
          format_currency_brl (cellOf df.cols r c))) }

/-- The public functions of src/utils.py, in source order. -/
inductive ModuleFunction where
  | criar_col_dat_hoje
  | filtrar_ultimos_n_meses
  | obter_data_inicial
  | obter_distrib_data
  | obter_distrib
  | obter_intervalo
  | renomear_cols
  | remover_cols_hudi
  | renomear_cols_para_minusculo
  | obter_pct
  | formatar_cols_moeda
  | formatar_cols_decimal
  | formatar_cols_float
  | formatar_cols_int
  | formatar_cols_zeros_a_esquerda
  | remover_espacos_extra
  | agrupar
  | mostrar_visao_geral
  | mostrar_teste_granularidade
  | orderBy_dict
  | obter_top_valores
  | preencher_nulos
  | obter_qtd_ausentes
  | obter_pct_ausentes
  | obter_qtd_zeros
  | obter_pct_zeros
  | obter_qtd_distintos
  | obter_pct_distintos
  | selecionar_cols_distintas
  | obter_tab_freq
  | obter_tab_freq_periodo
  | criar_col_qtd_digitos
deriving DecidableEq, Repr

/-- Kind of value a function of the module returns. -/
inductive ReturnKind where
  | dataframe
  | unitPrints
  | scalar
deriving DecidableEq, Repr

/-- Return kind of each public function of src/utils.py, read off its return
    statement: obter_data_inicial returns collect()[0][0], a date scalar;
    mostrar_visao_geral and mostrar_teste_granularidade return None and
    print; every other function returns a dataframe. -/
def returnKind : ModuleFunction → ReturnKind
  | .obter_data_inicial => .scalar
  | .mostrar_visao_geral => .unitPrints
  | .mostrar_teste_granularidade => .unitPrints
  | _ => .dataframe

/- ------------------------------------------------------------------ -/
/- Theorems. -/
/- ------------------------------------------------------------------ -/

theorem date_leb_trans {a b c : Date} (h1 : a.leb b) (h2 : b.leb c) :
    a.leb c := by
  simp only [Date.leb, Bool.or_eq_true, Bool.and_eq_true, decide_eq_true_eq,
    beq_iff_eq] at *
  omega

theorem date_leb_total (a b : Date) : a.leb b ∨ b.leb a := by
  simp only [Date.leb, Bool.or_eq_true, Bool.and_eq_true, decide_eq_true_eq,
    beq_iff_eq]
  omega

theorem Date.leb_antisymm {a b : Date} (h1 : a.leb b) (h2 : b.leb a) :
    a = b := by
  cases a; cases b
  simp only [Date.leb, Bool.or_eq_true, Bool.and_eq_true, decide_eq_true_eq,
    beq_iff_eq, Date.mk.injEq] at *
  omega

theorem Val.leb_trans {a b c : Val} (h1 : a.leb b) (h2 : b.leb c) :
    a.leb c := by
  cases a <;> cases b <;> cases c <;>
    simp only [Val.leb, Val.rank, decide_eq_true_eq] at * <;>
    first
      | rfl
      | omega
      | exact le_trans h1 h2
      | exact date_leb_trans h1 h2

theorem Val.leb_total (a b : Val) : a.leb b ∨ b.leb a := by
  cases a <;> cases b <;>
    simp only [Val.leb, Val.rank, decide_eq_true_eq] <;>
    first
      | omega
      | exact le_total _ _
      | exact date_leb_total _ _

/-- Given totality, the strict comparison is the negation of the reversed
    weak comparison. -/
theorem Val.ltb_eq_not_leb (a b : Val) : a.ltb b = !(b.leb a) := by
  unfold Val.ltb
  cases hba : b.leb a
  · simp only [Bool.not_false, Bool.and_true]
    exact (Val.leb_total a b).resolve_right (by simp [hba])
  · simp

/-- Characterization of one lexicographic step: it accepts unless y is
    weakly below x and either x is not weakly below y or the rest rejects. -/
theorem stepB_char (x y : Val) (r : Bool) :
    stepB x y r = true ↔ (y.leb x = true → (x.leb y = true ∧ r = true)) := by
  simp only [stepB, Val.ltb_eq_not_leb, Bool.not_eq_true']
  cases hxy : x.leb y <;> cases hyx : y.leb x <;> simp

theorem stepB_trans {x y z : Val} {r1 r2 r3 : Bool}
    (h1 : stepB x y r1 = true) (h2 : stepB y z r2 = true)
    (hr : r1 = true → r2 = true → r3 = true) : stepB x z r3 = true := by
  rw [stepB_char] at h1 h2 ⊢
  intro hzx
  by_cases hyx : y.leb x = true
  · obtain ⟨hxy, hr1⟩ := h1 hyx
    obtain ⟨hyz, hr2⟩ := h2 (Val.leb_trans hzx hxy)
    exact ⟨Val.leb_trans hxy hyz, hr hr1 hr2⟩
  · have hxy : x.leb y = true := (Val.leb_total x y).resolve_right hyx
    obtain ⟨hyz, _⟩ := h2 (Val.leb_trans hzx hxy)
    exact absurd (Val.leb_trans hyz hzx) hyx

theorem stepB_total (x y : Val) {r1 r2 : Bool} (h : r1 = true ∨ r2 = true) :
    stepB x y r1 = true ∨ stepB y x r2 = true := by
  rw [stepB_char, stepB_char]
  by_cases hxy : x.leb y = true
  · by_cases hyx : y.leb x = true
    · rcases h with h | h
      · exact Or.inl (fun _ => ⟨hxy, h⟩)
      · exact Or.inr (fun _ => ⟨hyx, h⟩)
    · exact Or.inl (fun hyx2 => absurd hyx2 hyx)
  · exact Or.inr (fun hxy2 => absurd hxy2 hxy)

theorem rowLeB_trans (cols : List String) (keys : List SortKey) :
    ∀ {a b c : List Val}, rowLeB cols keys a b → rowLeB cols keys b c →
      rowLeB cols keys a c := by
  induction keys with
  | nil => intro a b c _ _; rfl
  | cons k ks ih =>
    intro a b c h1 h2
    cases k with
    | asc col =>
      exact stepB_trans h1 h2 (fun hab hbc => ih hab hbc)
    | desc col =>
      exact stepB_trans h2 h1 (fun hbc hab => ih hab hbc)

theorem rowLeB_total (cols : List String) (keys : List SortKey) :
    ∀ a b : List Val,
      rowLeB cols keys a b = true ∨ rowLeB cols keys b a = true := by
  induction keys with
  | nil => intro a b; left; rfl
  | cons k ks ih =>
    intro a b
    cases k with
    | asc col => exact stepB_total _ _ (ih a b)
    | desc col => exact stepB_total _ _ (ih a b)

/-- C1: orderBy_dict does not sort descending columns descending: on the
    dataframe with single column a and rows 1, 2, the dictionary mapping a to
    desc returns the rows in ascending order 1, 2 instead of the descending
    order 2, 1 required by the claim. The desc branch of the source builds
    asc(col(coluna)). -/
theorem C1_orderBy_dict_sorts_desc_ascending :
    orderBy_dict { cols := ["a"], rows := [[Val.int 1], [Val.int 2]] }
        [("a", "desc")]
      = .ok { cols := ["a"], rows := [[Val.int 1], [Val.int 2]] } ∧
    ([[Val.int 1], [Val.int 2]] : List (List Val))
      ≠ [[Val.int 2], [Val.int 1]] := by
  constructor
  · rfl
  · decide

/-- C10: orderBy_dict produces an error exactly when some dictionary value is
    neither asc nor desc; in the error case no ordered dataframe is produced
    at all, since the validation loop runs before the orderBy call. -/
theorem C10_orderBy_dict_error_iff (df : DataFrame)
    (d_order : List (String × String)) :
    (∃ e, orderBy_dict df d_order = .error e) ↔
      ∃ p ∈ d_order, p.2 ≠ "asc" ∧ p.2 ≠ "desc" := by
  constructor
  · rintro ⟨e, he⟩
    unfold orderBy_dict at he
    cases hf : d_order.find? (fun p => p.2 != "asc" && p.2 != "desc") with
    | none => rw [hf] at he; exact absurd he (by simp)
    | some p =>
      have hmem := List.mem_of_find?_eq_some hf
      have hp := List.find?_some hf
      simp only [Bool.and_eq_true, bne_iff_ne] at hp
      exact ⟨p, hmem, hp.1, hp.2⟩
  · rintro ⟨p, hmem, h1, h2⟩
    have : (d_order.find? (fun p => p.2 != "asc" && p.2 != "desc")).isSome := by
      rw [List.find?_isSome]
      exact ⟨p, hmem, by simp [h1, h2]⟩
    unfold orderBy_dict
    cases hf : d_order.find? (fun p => p.2 != "asc" && p.2 != "desc") with
    | none => rw [hf] at this; simp at this
    | some q => exact ⟨_, rfl⟩

/-- C2: formatar_cols_moeda does not keep the column order of the input: on
    a dataframe with columns a, b and the list containing only a, the result
    has columns b, a, because the source selects the non-listed columns
    first and the listed ones last and, unlike formatar_cols_decimal and
    formatar_cols_float, never restores the original order, contradicting
    its own docstring. -/
theorem C2_formatar_cols_moeda_reorders :
    (formatar_cols_moeda
        { cols := ["a", "b"], rows := [[Val.int 1, Val.int 2]] }
        ["a"]).cols = ["b", "a"] ∧
    (["b", "a"] : List String) ≠ ["a", "b"] := by
  constructor
  · rfl
  · decide

/-- C3, counterexample: it is not the case that every public function of the
    module returns a dataframe or returns nothing and prints:
    obter_data_inicial returns a date scalar. -/
theorem C3_counterexample :
    ¬ (∀ f : ModuleFunction,
        returnKind f = .dataframe ∨ returnKind f = .unitPrints) := by
  intro h
  rcases h ModuleFunction.obter_data_inicial with h' | h' <;>
    exact absurd h' (by decide)

/-- C3, amended: every public function of the module other than
    obter_data_inicial either returns a dataframe or returns nothing and
    prints descriptive output; obter_data_inicial alone returns a scalar. -/
theorem C3_return_kinds (f : ModuleFunction)
    (h : f ≠ ModuleFunction.obter_data_inicial) :
    returnKind f = .dataframe ∨ returnKind f = .unitPrints := by
  cases f <;> first
    | exact absurd rfl h
    | exact Or.inl rfl
    | exact Or.inr rfl

theorem C3_return_kinds_witness :
    ModuleFunction.renomear_cols ≠ ModuleFunction.obter_data_inicial ∧
    (returnKind ModuleFunction.renomear_cols = .dataframe ∨
      returnKind ModuleFunction.renomear_cols = .unitPrints) :=
  ⟨by decide, C3_return_kinds ModuleFunction.renomear_cols (by decide)⟩

/-- C4, counterexample: the module is not stateless: criar_col_dat_hoje
    depends on the current date, so two runs on the same fixed input can
    give different results. -/
theorem C4_counterexample :
    ¬ (∀ (t₁ t₂ : Date) (df : DataFrame) (c : String),
        criar_col_dat_hoje t₁ df c = criar_col_dat_hoje t₂ df c) := by
  intro h
  have h2 := h ⟨2024, 1, 1⟩ ⟨2024, 1, 2⟩
    { cols := ["x"], rows := [[Val.int 0]] } "dat_hoje"
  exact absurd h2 (by decide)

/-- C4, amended: every function of the module except criar_col_dat_hoje
    depends only on its arguments; criar_col_dat_hoje additionally reads the
    current date and stamps it into the new column, so two of its runs on
    the same input agree exactly when the current dates coincide or the
    dataframe has no rows. -/
theorem C4_criar_col_dat_hoje_env (t₁ t₂ : Date) (df : DataFrame)
    (c : String) (hwf : ∀ r ∈ df.rows, r.length = df.cols.length) :
    criar_col_dat_hoje t₁ df c = criar_col_dat_hoje t₂ df c ↔
      (t₁ = t₂ ∨ df.rows = []) := by
  constructor
  · intro h
    by_cases hrows : df.rows = []
    · exact Or.inr hrows
    · left
      obtain ⟨r, hr⟩ := List.exists_mem_of_ne_nil df.rows hrows
      unfold criar_col_dat_hoje DataFrame.withColumnExpr at h
      by_cases hc : c ∈ df.cols
      · simp only [hc, if_true, DataFrame.mk.injEq, true_and] at h
        have hpt := (List.map_inj_left.mp h) r hr
        have hidx : df.cols.indexOf c < r.length := by
          rw [hwf r hr]
          exact List.indexOf_lt_length.mpr hc
        have := congrArg (fun l => l[df.cols.indexOf c]?) hpt
        simp only [List.getElem?_set_self hidx] at this
        exact Val.date.inj (Option.some.inj this)
      · simp only [hc, if_false, DataFrame.mk.injEq, true_and] at h
        have hpt := (List.map_inj_left.mp h) r hr
        have := List.append_cancel_left hpt
        exact Val.date.inj (List.cons.inj this).1
  · intro h
    rcases h with rfl | hrows
    · rfl
    · unfold criar_col_dat_hoje DataFrame.withColumnExpr
      by_cases hc : c ∈ df.cols <;> simp [hc, hrows]

theorem C4_criar_col_dat_hoje_env_witness :
    (∀ r ∈ ({ cols := ["x"], rows := [[Val.int 0]] } : DataFrame).rows,
        r.length =
          ({ cols := ["x"], rows := [[Val.int 0]] } : DataFrame).cols.length) ∧
    (criar_col_dat_hoje ⟨2024, 1, 1⟩
          { cols := ["x"], rows := [[Val.int 0]] } "d" =
        criar_col_dat_hoje ⟨2024, 1, 2⟩
          { cols := ["x"], rows := [[Val.int 0]] } "d" ↔
      ((⟨2024, 1, 1⟩ : Date) = ⟨2024, 1, 2⟩ ∨
        ({ cols := ["x"], rows := [[Val.int 0]] } : DataFrame).rows = [])) :=
  ⟨by decide, C4_criar_col_dat_hoje_env _ _ _ _ (by decide)⟩

theorem Date.leb_refl (a : Date) : a.leb a := by
  rcases date_leb_total a a with h | h <;> exact h

theorem listMaxD_mem {l : List Date} : ∀ {m : Date},
    listMaxD l = some m → m ∈ l := by
  induction l with
  | nil => intro m h; simp [listMaxD] at h
  | cons d ds ih =>
    intro m h
    have h2 := Option.some.inj h
    cases hds : listMaxD ds with
    | none =>
      rw [hds] at h2
      simp only [Option.elim] at h2
      subst h2
      exact List.mem_cons_self d ds
    | some m0 =>
      rw [hds] at h2
      simp only [Option.elim] at h2
      by_cases hle : Date.leb m0 d
      · rw [if_pos hle] at h2; subst h2; exact List.mem_cons_self d ds
      · rw [if_neg hle] at h2; subst h2
        exact List.mem_cons_of_mem d (ih hds)

theorem listMaxD_isUB {l : List Date} : ∀ {m : Date},
    listMaxD l = some m → ∀ d ∈ l, Date.leb d m := by
  induction l with
  | nil => intro m h; simp [listMaxD] at h
  | cons a as ih =>
    intro m h d hd
    have h2 := Option.some.inj h
    cases has : listMaxD as with
    | none =>
      rw [has] at h2
      simp only [Option.elim] at h2
      subst h2
      have hasnil : as = [] := by
        cases as with
        | nil => rfl
        | cons b bs => simp [listMaxD] at has
      subst hasnil
      rcases List.mem_singleton.mp hd with rfl
      exact Date.leb_refl _
    | some m0 =>
      rw [has] at h2
      simp only [Option.elim] at h2
      rcases List.mem_cons.mp hd with rfl | hmem
      · by_cases hle : Date.leb m0 d
        · rw [if_pos hle] at h2; subst h2; exact Date.leb_refl d
        · rw [if_neg hle] at h2; subst h2
          exact (date_leb_total d m0).resolve_right hle
      · have hub := ih has d hmem
        by_cases hle : Date.leb m0 a
        · rw [if_pos hle] at h2; subst h2; exact date_leb_trans hub hle
        · rw [if_neg hle] at h2; subst h2; exact hub

theorem listMaxD_isSome {l : List Date} (h : l ≠ []) :
    (listMaxD l).isSome := by
  cases l with
  | nil => exact absurd rfl h
  | cons d ds => simp [listMaxD]

/-- The fold that implements agg(max(...)) returns exactly the greatest
    element of the list. -/
theorem listMaxD_eq_some {l : List Date} {m : Date} (hmem : m ∈ l)
    (hub : ∀ d ∈ l, Date.leb d m) : listMaxD l = some m := by
  have hne : l ≠ [] := List.ne_nil_of_mem hmem
  obtain ⟨m0, hm0⟩ := Option.isSome_iff_exists.mp (listMaxD_isSome hne)
  have h1 : Date.leb m0 m := hub m0 (listMaxD_mem hm0)
  have h2 : Date.leb m m0 := listMaxD_isUB hm0 m hmem
  rw [hm0, Date.leb_antisymm h2 h1]

/-- C5: filtrar_ultimos_n_meses keeps exactly the rows whose value in the
    filtered column, cast to a date, is strictly greater than the date
    n_meses months before the greatest date of that column, leaving kept
    rows unchanged. The greatest date is given by the hypotheses: it occurs
    in the column and bounds every date of the column. -/
theorem C5_filtrar_ultimos_n_meses (df : DataFrame) (c : String) (n : Int)
    (M : Date)
    (hmem : Val.date M ∈ df.rows.map (fun r => cellOf df.cols r c))
    (hub : ∀ d, Val.date d ∈ df.rows.map (fun r => cellOf df.cols r c) →
      Date.leb d M) :
    filtrar_ultimos_n_meses df c n =
      { df with
        rows := df.rows.filter (fun r =>
          match cellOf df.cols r c with
          | Val.date d => Date.ltb (M.addMonths (-n)) d
          | _ => false) } := by
  have hmax : sparkMaxDate df c = some M := by
    apply listMaxD_eq_some
    · rw [List.mem_filterMap]
      obtain ⟨r, hr, hcell⟩ := List.mem_map.mp hmem
      exact ⟨r, hr, by rw [hcell]; rfl⟩
    · intro d hd
      obtain ⟨r, hr, hcell⟩ := List.mem_filterMap.mp hd
      apply hub
      rw [List.mem_map]
      refine ⟨r, hr, ?_⟩
      cases hv : cellOf df.cols r c <;> rw [hv] at hcell <;>
        simp [Val.asDate] at hcell
      rw [hcell]
  have hini : obter_data_inicial df c n = .date (M.addMonths (-n)) := by
    unfold obter_data_inicial
    rw [hmax]
  unfold filtrar_ultimos_n_meses
  rw [hini]
  congr 1
  apply List.filter_congr
  intro r _
  cases hv : cellOf df.cols r c <;> rfl

theorem C5_filtrar_ultimos_n_meses_witness :
    filtrar_ultimos_n_meses
        { cols := ["dt"],
          rows := [[Val.date ⟨2024, 3, 15⟩], [Val.date ⟨2024, 1, 10⟩],
            [Val.null]] } "dt" 1 =
      { cols := ["dt"],
        rows := ([[Val.date ⟨2024, 3, 15⟩], [Val.date ⟨2024, 1, 10⟩],
            [Val.null]] : List (List Val)).filter (fun r =>
          match cellOf ["dt"] r "dt" with
          | Val.date d => Date.ltb (Date.addMonths ⟨2024, 3, 15⟩ (-1)) d
          | _ => false) } := by
  apply C5_filtrar_ultimos_n_meses _ _ _ ⟨2024, 3, 15⟩
  · decide
  · intro d hd
    have hmap : (([[Val.date ⟨2024, 3, 15⟩], [Val.date ⟨2024, 1, 10⟩],
          [Val.null]] : List (List Val)).map
            (fun r => cellOf ["dt"] r "dt")) =
        [Val.date ⟨2024, 3, 15⟩, Val.date ⟨2024, 1, 10⟩, Val.null] := by
      decide
    rw [hmap] at hd
    simp only [List.mem_cons, List.not_mem_nil, or_false] at hd
    rcases hd with h | h | h
    · injection h with h2; subst h2; decide
    · injection h with h2; subst h2; decide
    · exact Val.noConfusion h


/-- Looking up a key that occurs among the firsts of an association list is
    the same as indexing the seconds at the index of the key among the
    firsts, as the source does with values()[keys().index(c)]. -/
theorem lookup_eq_getD_indexOf (l : List (String × String)) (c : String)
    (h : c ∈ l.map Prod.fst) :
    l.lookup c =
      some ((l.map Prod.snd).getD ((l.map Prod.fst).indexOf c) c) := by
  induction l with
  | nil => simp at h
  | cons p ps ih =>
    by_cases hc : c = p.1
    · subst hc
      simp [List.lookup, List.indexOf_cons_self]
    · have hmem : c ∈ ps.map Prod.fst := by
        rw [List.map_cons] at h
        rcases List.mem_cons.mp h with h' | h'
        · exact absurd h' hc
        · exact h'
      have hbeq : (c == p.1) = false := by simp [hc]
      rw [List.map_cons, List.map_cons,
        List.indexOf_cons_ne _ (fun he => hc he.symm), List.lookup, hbeq]
      simp only [Nat.succ_eq_add_one, List.getD_cons_succ]
      exact ih hmem

/-- Rebuilding a row by looking every column of a duplicate-free schema up
    in the row itself gives the row back. -/
theorem map_cellOf_self (cols : List String) (r : List Val)
    (hnd : cols.Nodup) (hlen : r.length = cols.length) :
    cols.map (fun c => r.getD (cols.indexOf c) Val.null) = r := by
  induction cols generalizing r with
  | nil =>
    cases r with
    | nil => rfl
    | cons v vs => simp at hlen
  | cons c cs ih =>
    cases r with
    | nil => simp at hlen
    | cons v vs =>
      have hnotin : c ∉ cs := (List.nodup_cons.mp hnd).1
      rw [List.map_cons]
      congr 1
      · rw [List.indexOf_cons_self]; rfl
      · have h2 : cs.map (fun c2 =>
              (v :: vs).getD ((c :: cs).indexOf c2) Val.null)
            = cs.map (fun c2 => vs.getD (cs.indexOf c2) Val.null) :=
          List.map_congr_left (fun c2 hc2 => by
            rw [List.indexOf_cons_ne _
              (fun he => hnotin (by rw [he]; exact hc2))]
            simp only [Nat.succ_eq_add_one, List.getD_cons_succ])
        rw [h2]
        exact ih vs (List.nodup_cons.mp hnd).2 (by simpa using hlen)

/-- Selecting every column of a duplicate-free schema in order, under any
    aliases, keeps the rows of the dataframe. -/
theorem selectAliased_zip_rows (df : DataFrame) (colsB : List String)
    (hlen : colsB.length = df.cols.length) (hnd : df.cols.Nodup)
    (hwf : ∀ r ∈ df.rows, r.length = df.cols.length) :
    (df.selectAliased (df.cols.zip colsB)).rows = df.rows := by
  unfold DataFrame.selectAliased
  simp only
  have hfst : (df.cols.zip colsB).map Prod.fst = df.cols :=
    List.map_fst_zip df.cols colsB (le_of_eq hlen.symm)
  have hrow : ∀ r ∈ df.rows,
      ((df.cols.zip colsB).map (fun p => cellOf df.cols r p.1)) = r := by
    intro r hr
    have hcomp : ((df.cols.zip colsB).map
          ((fun c => cellOf df.cols r c) ∘ Prod.fst)) = r := by
      rw [← List.map_map, hfst]
      exact map_cellOf_self df.cols r hnd (hwf r hr)
    exact hcomp
  calc df.rows.map (fun r =>
        (df.cols.zip colsB).map (fun p => cellOf df.cols r p.1))
      = df.rows.map id := List.map_congr_left (fun r hr => hrow r hr)
    _ = df.rows := List.map_id df.rows

/-- C6: renomear_cols keeps the rows and the column positions, renaming the
    column at each position to its value in dict_cols when its original
    name is a key there and keeping the original name otherwise. -/
theorem C6_renomear_cols (df : DataFrame)
    (dict_cols : List (String × String)) (hnd : df.cols.Nodup)
    (hwf : ∀ r ∈ df.rows, r.length = df.cols.length) :
    (renomear_cols df dict_cols).cols =
        df.cols.map (fun c => (dict_cols.lookup c).getD c) ∧
    (renomear_cols df dict_cols).rows = df.rows := by
  unfold renomear_cols
  simp only
  have hlen : (df.cols.map (fun c =>
      if c ∈ dict_cols.map Prod.fst then
        (dict_cols.map Prod.snd).getD
          ((dict_cols.map Prod.fst).indexOf c) c
      else c)).length = df.cols.length := List.length_map _ _
  constructor
  · show ((df.cols.zip _).map Prod.snd) = _
    rw [List.map_snd_zip df.cols _ (le_of_eq hlen)]
    apply List.map_congr_left
    intro c _
    by_cases hc : c ∈ dict_cols.map Prod.fst
    · rw [if_pos hc, lookup_eq_getD_indexOf _ _ hc]
      rfl
    · rw [if_neg hc]
      have hnone : dict_cols.lookup c = none := by
        rw [List.lookup_eq_none_iff]
        intro p hp
        simp only [bne_iff_ne, ne_eq]
        intro hk
        exact hc (List.mem_map.mpr ⟨p, hp, hk.symm⟩)
      rw [hnone]
      rfl
  · exact selectAliased_zip_rows df _ hlen hnd hwf

theorem C6_renomear_cols_witness :
    (({ cols := ["a", "b"], rows := [[Val.int 1, Val.int 2]] } :
        DataFrame).cols.Nodup) ∧
    (renomear_cols { cols := ["a", "b"], rows := [[Val.int 1, Val.int 2]] }
          [("a", "x")]).cols =
        (({ cols := ["a", "b"], rows := [[Val.int 1, Val.int 2]] } :
            DataFrame).cols.map
          (fun c =>
            (([("a", "x")] : List (String × String)).lookup c).getD c)) ∧
    (renomear_cols { cols := ["a", "b"], rows := [[Val.int 1, Val.int 2]] }
          [("a", "x")]).rows =
        ({ cols := ["a", "b"], rows := [[Val.int 1, Val.int 2]] } :
          DataFrame).rows := by
  refine ⟨by decide, ?_, ?_⟩
  · exact (C6_renomear_cols _ [("a", "x")] (by decide) (by decide)).1
  · exact (C6_renomear_cols _ [("a", "x")] (by decide) (by decide)).2

/-- Indexing a mapped list at the index of a member of the base list gives
    the function applied to that member. -/
theorem getD_map_indexOf (l : List String) (f : String → Val) (c : String)
    (h : c ∈ l) : (l.map f).getD (l.indexOf c) Val.null = f c := by
  induction l with
  | nil => simp at h
  | cons a as ih =>
    by_cases hc : c = a
    · subst hc
      rw [List.indexOf_cons_self, List.map_cons]
      rfl
    · have hmem : c ∈ as := (List.mem_cons.mp h).resolve_left hc
      rw [List.map_cons, List.indexOf_cons_ne _ (fun he => hc he.symm)]
      simp only [Nat.succ_eq_add_one, List.getD_cons_succ]
      exact ih hmem

/-- C7: with a nonzero effective total, obter_pct_ausentes returns a
    single-row dataframe whose value under each listed column (all columns
    when the list is None) is the null count of that column, times 100,
    divided by the effective total (the row count when tam_df is None),
    rounded to 2 decimal places. -/
theorem C7_obter_pct_ausentes (df : DataFrame)
    (lst_nm_cols : Option (List String)) (tam_df : Option Int)
    (hT : tam_df.getD (df.rows.length : Int) ≠ 0) :
    obter_pct_ausentes df lst_nm_cols tam_df =
      { cols := lst_nm_cols.getD df.cols,
        rows := [(lst_nm_cols.getD df.cols).map (fun c =>
          Val.rat (round2 ((countNulls df c : ℚ) * 100 /
            ((tam_df.getD (df.rows.length : Int) : Int) : ℚ))))] } := by
  unfold obter_pct_ausentes obter_pct obter_qtd_ausentes
  simp only [Option.getD_some, List.map_cons, List.map_nil]
  congr 1
  congr 1
  apply List.map_congr_left
  intro c hc
  show pctOf (cellOf (lst_nm_cols.getD df.cols)
      ((lst_nm_cols.getD df.cols).map (fun c2 => Val.int (countNulls df c2)))
      c) _ = _
  unfold cellOf
  rw [getD_map_indexOf _ _ _ hc]
  unfold pctOf
  simp only [Val.toRatQ]
  rw [if_neg hT]
  norm_num

/-- C7 witness at a concrete dataframe with two columns, one null each. -/
theorem C7_obter_pct_ausentes_witness :
    obter_pct_ausentes
        { cols := ["a", "b"],
          rows := [[Val.null, Val.int 1], [Val.int 2, Val.null]] }
        none none =
      { cols := (none : Option (List String)).getD ["a", "b"],
        rows := [((none : Option (List String)).getD ["a", "b"]).map
          (fun c =>
            Val.rat (round2 ((countNulls
              { cols := ["a", "b"],
                rows := [[Val.null, Val.int 1], [Val.int 2, Val.null]] }
              c : ℚ) * 100 /
              (((none : Option Int).getD
                (({ cols := ["a", "b"],
                    rows := [[Val.null, Val.int 1], [Val.int 2, Val.null]] } :
                  DataFrame).rows.length : Int) : Int) : ℚ))))] } :=
  C7_obter_pct_ausentes _ none none (by decide)

/-- The eqNullSafe-zero test of the source holds exactly on non-null cells
    whose value is the integer or the numeric zero. -/
theorem eqNullSafeZero_char (v : Val) :
    eqNullSafeZero v =
      decide (v ≠ Val.null ∧ (v = Val.int 0 ∨ v = Val.rat 0)) := by
  cases v with
  | null => simp [eqNullSafeZero]
  | int n => by_cases h : n = 0 <;> simp [eqNullSafeZero, h]
  | rat q => by_cases h : q = 0 <;> simp [eqNullSafeZero, h]
  | str s => simp [eqNullSafeZero]
  | date d => simp [eqNullSafeZero]

/-- C9: obter_qtd_zeros returns a single-row dataframe whose value under
    each listed column is the number of rows whose value in that column
    equals zero; rows with a null value in that column are not counted. -/
theorem C9_obter_qtd_zeros (df : DataFrame) (lst_nm_cols : List String) :
    (obter_qtd_zeros df lst_nm_cols).cols = lst_nm_cols ∧
    (obter_qtd_zeros df lst_nm_cols).rows =
      [lst_nm_cols.map (fun c => Val.int ((df.rows.filter (fun r =>
        decide (cellOf df.cols r c ≠ Val.null ∧
          (cellOf df.cols r c = Val.int 0 ∨
            cellOf df.cols r c = Val.rat 0)))).length))] := by
  refine ⟨rfl, ?_⟩
  unfold obter_qtd_zeros
  simp only
  congr 1
  apply List.map_congr_left
  intro c _
  congr 2
  apply congrArg
  apply List.filter_congr
  intro r _
  exact eqNullSafeZero_char _

theorem orderBy_cols (df : DataFrame) (keys : List SortKey) :
    (df.orderBy keys).cols = df.cols := rfl

theorem orderBy_rows (df : DataFrame) (keys : List SortKey) :
    (df.orderBy keys).rows =
      df.rows.insertionSort (fun a b => rowLeB df.cols keys a b = true) := rfl

theorem withColumnExpr_cols_of_not_mem (df : DataFrame) (c : String)
    (e : List Val → Val) (h : c ∉ df.cols) :
    (df.withColumnExpr c e).cols = df.cols ++ [c] := by
  unfold DataFrame.withColumnExpr
  rw [if_neg h]

theorem withColumnExpr_rows_of_not_mem (df : DataFrame) (c : String)
    (e : List Val → Val) (h : c ∉ df.cols) :
    (df.withColumnExpr c e).rows = df.rows.map (fun r => r ++ [e r]) := by
  unfold DataFrame.withColumnExpr
  rw [if_neg h]

theorem indexOf_append_cons (l : List String) (c : String)
    (rest : List String) (h : c ∉ l) :
    (l ++ c :: rest).indexOf c = l.length := by
  induction l with
  | nil => simp [List.indexOf_cons_self]
  | cons a as ih =>
    have hca : c ≠ a := fun he => h (he ▸ List.mem_cons_self a as)
    rw [List.cons_append, List.indexOf_cons_ne _ (fun he => hca he.symm),
      ih (fun hm => h (List.mem_cons_of_mem a hm))]
    rfl

theorem getD_append_cons (l : List Val) (x : Val) (rest : List Val)
    (d : Val) : (l ++ x :: rest).getD l.length d = x := by
  induction l with
  | nil => rfl
  | cons v vs ih =>
    rw [List.cons_append, List.length_cons, List.getD_cons_succ]
    exact ih

theorem leb_of_stepB_true {x y : Val} (h : stepB x y true = true) :
    x.leb y = true := by
  rw [stepB_char] at h
  by_cases hyx : y.leb x = true
  · exact (h hyx).1
  · exact (Val.leb_total x y).resolve_right hyx

/-- In a duplicate-free list, exactly one element equals a given member. -/
theorem countP_eq_one_of_nodup_mem {α : Type} [DecidableEq α]
    {l : List α} {a : α} (hnd : l.Nodup) (hmem : a ∈ l) :
    l.countP (fun x => decide (x = a)) = 1 := by
  induction l with
  | nil => simp at hmem
  | cons b bs ih =>
    rw [List.countP_cons]
    rcases List.mem_cons.mp hmem with rfl | hmem2
    · have hnotin : a ∉ bs := (List.nodup_cons.mp hnd).1
      have hz : bs.countP (fun x => decide (x = a)) = 0 := by
        rw [List.countP_eq_zero]
        intro x hx
        simp only [decide_eq_true_eq]
        exact fun he => hnotin (he ▸ hx)
      simp [hz]
    · have hne : b ≠ a := fun he => (List.nodup_cons.mp hnd).1 (he ▸ hmem2)
      simp [hne, ih (List.nodup_cons.mp hnd).2 hmem2]

/-- C8: with a nonzero effective total and grouping columns distinct from
    the three engine-generated names, obter_tab_freq returns a dataframe
    whose columns are the grouping columns followed by freq_absoluta and
    freq_relativa (%), whose every row consists of a key occurring in the
    input followed by the number of input rows with that key and that count
    times 100 over the total rounded to 2 decimals, with exactly one row per
    occurring key, and with the rows ordered by freq_absoluta descending. -/
theorem C8_obter_tab_freq (df : DataFrame) (nm_col : List String)
    (tam_df : Option Int)
    (hT : tam_df.getD (df.rows.length : Int) ≠ 0)
    (hfa : "freq_absoluta" ∉ nm_col)
    (hfr : "freq_relativa (%)" ∉ nm_col)
    (hcnt : "count" ∉ nm_col) :
    (obter_tab_freq df nm_col tam_df).cols
        = nm_col ++ ["freq_absoluta", "freq_relativa (%)"] ∧
    (∀ row ∈ (obter_tab_freq df nm_col tam_df).rows,
      ∃ k ∈ df.rows.map (keyOfRow df nm_col),
        row = k ++ [Val.int (freqCount df nm_col k),
          Val.rat (round2 ((freqCount df nm_col k : ℚ) * 100 /
            ((tam_df.getD (df.rows.length : Int) : Int) : ℚ)))]) ∧
    (∀ k ∈ df.rows.map (keyOfRow df nm_col),
      ((obter_tab_freq df nm_col tam_df).rows.countP
        (fun row => decide (row.take nm_col.length = k))) = 1) ∧
    (obter_tab_freq df nm_col tam_df).rows.Pairwise (fun a b =>
      Val.leb
        (cellOf (nm_col ++ ["freq_absoluta", "freq_relativa (%)"]) b
          "freq_absoluta")
        (cellOf (nm_col ++ ["freq_absoluta", "freq_relativa (%)"]) a
          "freq_absoluta") = true) := by
  have hg1cols : ((groupCount df nm_col).withColumnRenamed "count"
      "freq_absoluta").cols = nm_col ++ ["freq_absoluta"] := by
    show ((nm_col ++ ["count"]).map
        (fun c => if c == "count" then "freq_absoluta" else c)) = _
    rw [List.map_append]
    congr 1
    calc nm_col.map (fun c => if c == "count" then "freq_absoluta" else c)
        = nm_col.map id := List.map_congr_left (fun c hcmem => by
          have hne : (c == "count") = false :=
            beq_eq_false_iff_ne.mpr (fun he => hcnt (he ▸ hcmem))
          simp [hne])
      _ = nm_col := List.map_id _
  have hfrne : ("freq_relativa (%)" : String) ≠ "freq_absoluta" := by decide
  have hfrg1 : "freq_relativa (%)" ∉ ((groupCount df nm_col).withColumnRenamed
      "count" "freq_absoluta").cols := by
    rw [hg1cols]
    intro hm
    rcases List.mem_append.mp hm with h | h
    · exact hfr h
    · exact hfrne (List.mem_singleton.mp h)
  have hKlen : ∀ k ∈ (df.rows.map (keyOfRow df nm_col)).dedup,
      k.length = nm_col.length := by
    intro k hk
    obtain ⟨r, _, hkr⟩ := List.mem_map.mp (List.mem_dedup.mp hk)
    rw [← hkr]
    unfold keyOfRow
    exact List.length_map _ _
  have hcellrow : ∀ k ∈ (df.rows.map (keyOfRow df nm_col)).dedup,
      cellOf ((groupCount df nm_col).withColumnRenamed "count"
          "freq_absoluta").cols (k ++ [Val.int (freqCount df nm_col k)])
        "freq_absoluta" = Val.int (freqCount df nm_col k) := by
    intro k hk
    unfold cellOf
    rw [hg1cols, indexOf_append_cons _ _ _ hfa, ← hKlen k hk]
    exact getD_append_cons _ _ _ _
  have hbrows : (tabFreqBase df nm_col
        (tam_df.getD (df.rows.length : Int))).rows =
      (df.rows.map (keyOfRow df nm_col)).dedup.map (fun k =>
        k ++ [Val.int (freqCount df nm_col k),
          Val.rat (round2 ((freqCount df nm_col k : ℚ) * 100 /
            ((tam_df.getD (df.rows.length : Int) : Int) : ℚ)))]) := by
    unfold tabFreqBase
    rw [withColumnExpr_rows_of_not_mem _ _ _ hfrg1]
    show ((df.rows.map (keyOfRow df nm_col)).dedup.map (fun k =>
        k ++ [Val.int (freqCount df nm_col k)])).map _ = _
    rw [List.map_map]
    apply List.map_congr_left
    intro k hk
    simp only [Function.comp]
    rw [hcellrow k hk]
    unfold pctOf
    simp only [Val.toRatQ]
    rw [if_neg hT]
    simp [List.append_assoc]
  have hbcols : (tabFreqBase df nm_col
        (tam_df.getD (df.rows.length : Int))).cols =
      nm_col ++ ["freq_absoluta", "freq_relativa (%)"] := by
    unfold tabFreqBase
    rw [withColumnExpr_cols_of_not_mem _ _ _ hfrg1, hg1cols,
      List.append_assoc]
    rfl
  have hperm : (obter_tab_freq df nm_col tam_df).rows.Perm
      ((tabFreqBase df nm_col (tam_df.getD (df.rows.length : Int))).rows) := by
    unfold obter_tab_freq
    rw [orderBy_rows]
    exact List.perm_insertionSort _ _
  refine ⟨?_, ?_, ?_, ?_⟩
  · unfold obter_tab_freq
    rw [orderBy_cols]
    exact hbcols
  · intro row hrow
    have hrow2 : row ∈ (tabFreqBase df nm_col
        (tam_df.getD (df.rows.length : Int))).rows := hperm.subset hrow
    rw [hbrows] at hrow2
    obtain ⟨k, hk, hkrow⟩ := List.mem_map.mp hrow2
    exact ⟨k, List.mem_dedup.mp hk, hkrow.symm⟩
  · intro k hk
    have hKk : k ∈ (df.rows.map (keyOfRow df nm_col)).dedup :=
      List.mem_dedup.mpr hk
    rw [List.Perm.countP_eq _ hperm, hbrows, List.countP_map]
    calc ((df.rows.map (keyOfRow df nm_col)).dedup.countP
          ((fun row => decide (row.take nm_col.length = k)) ∘ (fun k2 =>
            k2 ++ [Val.int (freqCount df nm_col k2),
              Val.rat (round2 ((freqCount df nm_col k2 : ℚ) * 100 /
                ((tam_df.getD (df.rows.length : Int) : Int) : ℚ)))])))
        = ((df.rows.map (keyOfRow df nm_col)).dedup.countP
            (fun k2 => decide (k2 = k))) := by
          apply List.countP_congr
          intro k2 hk2
          simp only [Function.comp]
          rw [List.take_left' (hKlen k2 hk2)]
      _ = 1 := countP_eq_one_of_nodup_mem (List.nodup_dedup _) hKk
  · haveI : IsTotal (List Val) (fun a b =>
        rowLeB (nm_col ++ ["freq_absoluta", "freq_relativa (%)"])
          [SortKey.desc "freq_absoluta"] a b = true) :=
      ⟨fun a b => rowLeB_total _ _ a b⟩
    haveI : IsTrans (List Val) (fun a b =>
        rowLeB (nm_col ++ ["freq_absoluta", "freq_relativa (%)"])
          [SortKey.desc "freq_absoluta"] a b = true) :=
      ⟨fun a b c hab hbc => rowLeB_trans _ _ hab hbc⟩
    show ((obter_tab_freq df nm_col tam_df).rows.Pairwise _)
    unfold obter_tab_freq
    rw [orderBy_rows, hbcols]
    have hsorted := List.sorted_insertionSort (fun a b =>
        rowLeB (nm_col ++ ["freq_absoluta", "freq_relativa (%)"])
          [SortKey.desc "freq_absoluta"] a b = true)
      ((tabFreqBase df nm_col (tam_df.getD (df.rows.length : Int))).rows)
    refine hsorted.imp ?_
    intro a b hab
    exact leb_of_stepB_true hab

theorem C8_obter_tab_freq_witness :
    (obter_tab_freq
        { cols := ["g"], rows := [[Val.int 1], [Val.int 1], [Val.int 2]] }
        ["g"] none).cols =
      ["g"] ++ ["freq_absoluta", "freq_relativa (%)"] :=
  (C8_obter_tab_freq _ ["g"] none (by decide) (by decide) (by decide)
    (by decide)).1
